import Mathlib

set_option maxRecDepth 16384

/-!
Shallow embedding of the caption pipeline of birdhouse5/CaptionApp.

The embedding covers, translated from the source:
  * the token grouper `Segmenter._group_words_with_punctuation` and the
    segment packer `Segmenter.create_segments`
    (src/caption_tool/core/segmenter.py);
  * the timeline resolver and the per-frame caption geometry of
    `add_text_with_segments_and_color_highlights`
    (src/core/media_processer.py), whose active-segment lookup is the same
    first-match scan as `CaptionRenderer._render_caption_on_frame`
    (src/caption_tool/core/renderer.py);
  * the control flow of the ffmpeg remux step of
    `process_complete_video_with_audio_rotated` (src/core/media_processer.py).

Modelling conventions: times are carried as rationals (the source carries
formatted timestamps or float seconds convertible to seconds); pixel widths
are naturals; screen coordinates are integers; the external text-measurement
capability (PIL `textlength` / `getbbox`, or the source's own fallback
`len(text) * (font_size // 2)`) is a parameter `measure : String -> Nat`;
colors are abstracted to numeric identifiers.
-/

namespace CaptionApp

/-- A transcribed word: `{text, start, end}`.  The source's `end` key is the
field `stop` here (`end` is reserved in Lean). -/
structure Word where
  text : String
  start : ℚ
  stop : ℚ
deriving DecidableEq, Repr

/-- Models Python's `\w` word-character class for the characters the pipeline
handles (alphanumeric or underscore). -/
def isWordChar (c : Char) : Bool :=
  c.isAlphanum || c == '_'

/-- `Segmenter._is_punctuation`: the text matches the regex
`^[^\w\s]$` — exactly one character that is neither a word character nor
whitespace. -/
def isPunctuation (s : String) : Bool :=
  match s.data with
  | [c] => !(isWordChar c) && !c.isWhitespace
  | _ => false

/-- The apostrophe test of `_group_words_with_punctuation` line 84:
`word_text in ["'", "'"]` (both list members are the ASCII apostrophe). -/
def isApostrophe (s : String) : Bool :=
  s == "'"

/-- `contraction_endings = ['re', 'll', 've', 's', 't', 'd', 'm']`. -/
def contractionEndings : List String :=
  ["re", "ll", "ve", "s", "t", "d", "m"]

/-- The loop of `Segmenter._group_words_with_punctuation`, carried
functionally: the first argument is the mutable `current_group` (an
in-progress token not yet emitted), the second the remaining words.
Punctuation words append to the in-progress token (standalone punctuation is
emitted on its own); an ASCII apostrophe followed by a contraction suffix
(case-insensitively drawn from `contractionEndings`) merges the in-progress
token, the apostrophe and the suffix into one token, consuming two words;
a regular word emits the in-progress token and becomes the new one. -/
def groupLoop : Option Word → List Word → List Word
  | none, [] => []
  | some g, [] => [g]
  | cg, [w] =>
    -- final loop iteration (no following word, so no contraction merge),
    -- followed by the trailing `if current_group: grouped_words.append(...)`
    if isPunctuation w.text then
      match cg with
      | none => [w]
      | some g => [{ text := g.text ++ w.text, start := g.start, stop := w.stop }]
    else
      match cg with
      | none => [w]
      | some g => [g, w]
  | cg, w :: n :: rest =>
    if isPunctuation w.text then
      match cg with
      | none => w :: groupLoop none (n :: rest)
      | some g =>
        if isApostrophe w.text && contractionEndings.contains n.text.toLower then
          groupLoop
            (some { text := g.text ++ w.text ++ n.text, start := g.start, stop := n.stop })
            rest
        else
          groupLoop (some { text := g.text ++ w.text, start := g.start, stop := w.stop })
            (n :: rest)
    else
      match cg with
      | some g => g :: groupLoop (some w) (n :: rest)
      | none => groupLoop (some w) (n :: rest)

/-- `Segmenter._group_words_with_punctuation` entered with no in-progress
token. -/
def groupWords (words : List Word) : List Word :=
  groupLoop none words

/-- The running segment of `Segmenter.create_segments` together with the
loop variable `current_width`. -/
structure Running where
  text : String
  start : ℚ
  stop : ℚ
  words : List Word
  width : ℕ
deriving DecidableEq, Repr

/-- A formatted output segment of `Segmenter.create_segments`
(`index` is 1-based). -/
structure Segment where
  index : ℕ
  startTime : ℚ
  endTime : ℚ
  text : String
  words : List Word
deriving DecidableEq, Repr

/-- The packing loop of `Segmenter.create_segments` (lines 153-208).  The
`Option Running` argument models the `start_time is None` test marking an
empty running segment: words with whitespace-only text are skipped; the
first kept word seeds the running segment; a later word whose candidate
width `current_width + space_width + word_width` exceeds `maxWidthPixels`,
or whose duration `word.end - segment.start` exceeds `maxDurationSeconds`,
closes the running segment and seeds a new one — unless the word is
punctuation, which is always appended (without a joining space in the
text). -/
def packLoop (μ : String → ℕ) (maxWidthPixels : ℕ) (maxDurationSeconds : ℚ) (spaceWidth : ℕ) :
    Option Running → List Word → List Running
  | r, [] =>
    match r with
    | none => []
    | some run => [run]
  | r, w :: rest =>
    if w.text.trim == "" then
      packLoop μ maxWidthPixels maxDurationSeconds spaceWidth r rest
    else
      let wordWidth := μ w.text
      match r with
      | none =>
        packLoop μ maxWidthPixels maxDurationSeconds spaceWidth
          (some { text := w.text, start := w.start, stop := w.stop, words := [w],
                  width := wordWidth }) rest
      | some run =>
        let newWidth := run.width + spaceWidth + wordWidth
        let duration := w.stop - run.start
        let widthExceeded := decide (maxWidthPixels < newWidth)
        let durationExceeded := decide (maxDurationSeconds < duration)
        if (widthExceeded || durationExceeded) && !isPunctuation w.text then
          run :: packLoop μ maxWidthPixels maxDurationSeconds spaceWidth
            (some { text := w.text, start := w.start, stop := w.stop, words := [w],
                    width := wordWidth }) rest
        else
          let newText :=
            if isPunctuation w.text then run.text ++ w.text else run.text ++ " " ++ w.text
          packLoop μ maxWidthPixels maxDurationSeconds spaceWidth
            (some { text := newText, start := run.start, stop := w.stop,
                    words := run.words ++ [w], width := newWidth }) rest

/-- `Segmenter.create_segments`: group, pack, then format with 1-based
indices.  `spaceWidth` is `measure(' ')` as in the source; the measurement
capability `μ` is the parameter standing for `_measure_text_width`. -/
def createSegments (μ : String → ℕ) (maxWidthPixels : ℕ) (maxDurationSeconds : ℚ)
    (words : List Word) : List Segment :=
  if words.isEmpty then []
  else
    let grouped := groupWords words
    let spaceWidth := μ " "
    let runs := packLoop μ maxWidthPixels maxDurationSeconds spaceWidth none grouped
    runs.enum.map fun p =>
      { index := p.1 + 1, startTime := p.2.start, endTime := p.2.stop,
        text := p.2.text, words := p.2.words }

/-- The source's own fallback text measure, `len(text) * (font_size // 2)`
(`Segmenter._measure_text_width`), at font size 40. -/
def fallbackMeasure (s : String) : ℕ :=
  s.length * 20

/-- The cumulative width the packing loop tracks for a run of tokens: the
first token contributes its own width, every later token contributes
`spaceWidth` plus its width (punctuation included). -/
def tokensWidth (μ : String → ℕ) (spaceWidth : ℕ) : List Word → ℕ
  | [] => 0
  | w :: ws => ws.foldl (fun acc w2 => acc + (spaceWidth + μ w2.text)) (μ w.text)

/-- Follows the spec's words (refinement comparison for the packer): the
candidate combined width is
`current_width + (0 if punctuation else space_width) + token_width`;
everything else as in `packLoop`. -/
def specPackLoop (μ : String → ℕ) (maxWidthPixels : ℕ) (maxDurationSeconds : ℚ)
    (spaceWidth : ℕ) : Option Running → List Word → List Running
  | r, [] =>
    match r with
    | none => []
    | some run => [run]
  | r, w :: rest =>
    if w.text.trim == "" then
      specPackLoop μ maxWidthPixels maxDurationSeconds spaceWidth r rest
    else
      let wordWidth := μ w.text
      match r with
      | none =>
        specPackLoop μ maxWidthPixels maxDurationSeconds spaceWidth
          (some { text := w.text, start := w.start, stop := w.stop, words := [w],
                  width := wordWidth }) rest
      | some run =>
        let newWidth :=
          run.width + (if isPunctuation w.text then 0 else spaceWidth) + wordWidth
        let duration := w.stop - run.start
        let widthExceeded := decide (maxWidthPixels < newWidth)
        let durationExceeded := decide (maxDurationSeconds < duration)
        if (widthExceeded || durationExceeded) && !isPunctuation w.text then
          run :: specPackLoop μ maxWidthPixels maxDurationSeconds spaceWidth
            (some { text := w.text, start := w.start, stop := w.stop, words := [w],
                    width := wordWidth }) rest
        else
          let newText :=
            if isPunctuation w.text then run.text ++ w.text else run.text ++ " " ++ w.text
          specPackLoop μ maxWidthPixels maxDurationSeconds spaceWidth
            (some { text := newText, start := run.start, stop := w.stop,
                    words := run.words ++ [w], width := newWidth }) rest

/-- `createSegments` with the spec-worded candidate width of `specPackLoop`. -/
def specCreateSegments (μ : String → ℕ) (maxWidthPixels : ℕ) (maxDurationSeconds : ℚ)
    (words : List Word) : List Segment :=
  if words.isEmpty then []
  else
    let grouped := groupWords words
    let spaceWidth := μ " "
    let runs := specPackLoop μ maxWidthPixels maxDurationSeconds spaceWidth none grouped
    runs.enum.map fun p =>
      { index := p.1 + 1, startTime := p.2.start, endTime := p.2.stop,
        text := p.2.text, words := p.2.words }

/-! ### Timeline resolver

`CaptionRenderer._render_caption_on_frame` (renderer.py 246-254) and
`add_text_with_segments_and_color_highlights` (media_processer.py 935-943)
both scan the segment list in order and keep the first segment whose
half-open span contains the query time. -/

/-- `segment.start <= t < segment.end`. -/
def segmentActiveAt (s : Segment) (t : ℚ) : Bool :=
  decide (s.startTime ≤ t) && decide (t < s.endTime)

/-- First-match active-segment lookup. -/
def findActiveSegment (segments : List Segment) (t : ℚ) : Option Segment :=
  segments.find? (fun s => segmentActiveAt s t)

/-- `word.start <= t < word.end` (the per-word test of both render paths). -/
def wordActiveAt (w : Word) (t : ℚ) : Bool :=
  decide (w.start ≤ t) && decide (t < w.stop)

/-- First-match active-word lookup inside a segment. -/
def findActiveWord (words : List Word) (t : ℚ) : Option Word :=
  words.find? (fun w => wordActiveAt w t)

/-! ### Per-frame caption geometry

Shallow embedding of `add_text_with_segments_and_color_highlights`
(media_processer.py 850-1194).  Drawing is modelled as the ordered list of
primitive operations the function issues to its four layers; rasterisation,
blur and alpha compositing are the external capability (a `composite`
function applied to the operation list). -/

/-- Python's `int()` truncation toward zero, on rationals. -/
def pyInt (q : ℚ) : ℤ :=
  if 0 ≤ q then ⌊q⌋ else ⌈q⌉

/-- The four overlay layers, bottom to top: full-caption background,
highlight background, blurred shadow, text. -/
inductive Layer
  | background
  | highlightBg
  | shadow
  | text
deriving DecidableEq, Repr

/-- A primitive drawing operation issued to a layer. -/
inductive DrawOp
  | roundedRect (layer : Layer) (left top right bottom radius : ℤ) (color : ℕ)
  | glyphs (layer : Layer) (x y : ℤ) (content : String) (color : ℕ)
deriving DecidableEq, Repr

/-- Render configuration of `add_text_with_segments_and_color_highlights`
(colors abstracted to numeric identifiers; alpha handling dropped). -/
structure RenderConfig where
  fontSize : ℕ
  posX : ℚ
  posY : ℚ
  wordSpacing : ℕ
  normalColor : ℕ
  textHighlightColor : ℕ
  bgColor : Option ℕ
  bgHighlightColor : Option ℕ
  highlightText : Bool
  highlightBackground : Bool
  showCurrentWordOnly : Bool
deriving DecidableEq, Repr

/-- `int(font_size * 0.5)` — horizontal padding of the full background. -/
def hPaddingOf (fontSize : ℕ) : ℤ :=
  (fontSize : ℤ) / 2

/-- `int(font_size * 0.3)` — vertical padding of the full background (exact
rational truncation; the source's float product can differ by one pixel for
some font sizes). -/
def vPaddingOf (fontSize : ℕ) : ℤ :=
  (3 * (fontSize : ℤ)) / 10

/-- `int(font_size * 0.2)` — padding of the per-word highlight rectangle. -/
def hlPaddingOf (fontSize : ℕ) : ℤ :=
  (2 * (fontSize : ℤ)) / 10

/-- `int(font_size * 0.15)` — corner radius of the highlight rectangle. -/
def hlRadiusOf (fontSize : ℕ) : ℤ :=
  (15 * (fontSize : ℤ)) / 100

/-- `int(font_size * 0.3)` — corner radius of the full background. -/
def bgRadiusOf (fontSize : ℕ) : ℤ :=
  (3 * (fontSize : ℤ)) / 10

/-- The horizontal extent of the caption block in the full-segment path:
left and right edge of the background rectangle and the text start `x`,
before and after edge clamping. -/
structure BlockPos where
  bgLeft : ℤ
  bgRight : ℤ
  startX : ℤ
deriving DecidableEq, Repr

/-- Lines 1086-1099 of media_processer.py: shift the background and the text
start together right if the background starts left of `minMargin`, then
together left if it ends right of `width - minMargin`. -/
def clampSegmentBlock (width minMargin : ℤ) (p : BlockPos) : BlockPos :=
  let p1 :=
    if p.bgLeft < minMargin then
      let offset := minMargin - p.bgLeft
      { bgLeft := p.bgLeft + offset, bgRight := p.bgRight + offset,
        startX := p.startX + offset }
    else p
  if p1.bgRight > width - minMargin then
    let offset := p1.bgRight - (width - minMargin)
    { bgLeft := p1.bgLeft - offset, bgRight := p1.bgRight - offset,
      startX := p1.startX - offset }
  else p1

/-- The word loop of the full-segment path (lines 1124-1173): for each word,
a shadow glyph run, an optional highlight rectangle under the active word,
and a text glyph run; `x` advances by the word's width plus `word_spacing`. -/
def segmentWordOps (μ : String → ℕ) (textHeight : ℕ) (cfg : RenderConfig) (t : ℚ)
    (y : ℤ) : ℤ → List Word → List DrawOp
  | _, [] => []
  | x, w :: rest =>
    let wordWidth : ℤ := (μ w.text : ℤ)
    let isHighlighted := wordActiveAt w t
    let hlOps :=
      if cfg.highlightBackground && isHighlighted then
        match cfg.bgHighlightColor.getD cfg.textHighlightColor with
        | c =>
          [DrawOp.roundedRect .highlightBg (x - hlPaddingOf cfg.fontSize)
            (y - hlPaddingOf cfg.fontSize) (x + wordWidth + hlPaddingOf cfg.fontSize)
            (y + (textHeight : ℤ) + hlPaddingOf cfg.fontSize) (hlRadiusOf cfg.fontSize) c]
      else []
    let textColor :=
      if cfg.highlightText && isHighlighted then cfg.textHighlightColor else cfg.normalColor
    DrawOp.glyphs .shadow x y w.text 0 :: hlOps
      ++ DrawOp.glyphs .text x y w.text textColor
      :: segmentWordOps μ textHeight cfg t y (x + wordWidth + (cfg.wordSpacing : ℤ)) rest

/-- The drawing operations `add_text_with_segments_and_color_highlights`
issues for one frame: find the active segment (none → no operations); in
`show_current_word_only` mode draw only the active word (none → no
operations) with no edge clamping; otherwise lay out the whole segment
centered at `posX`, clamp the block horizontally via `clampSegmentBlock`,
draw the optional full background, then every word. -/
def addTextOps (μ : String → ℕ) (textHeight : ℕ) (width height : ℕ) (cfg : RenderConfig)
    (segments : List Segment) (t : ℚ) : List DrawOp :=
  let baseY : ℤ := pyInt ((height : ℚ) * cfg.posY)
  match findActiveSegment segments t with
  | none => []
  | some seg =>
    if cfg.showCurrentWordOnly then
      match findActiveWord seg.words t with
      | none => []
      | some w =>
        let wordWidth : ℤ := (μ w.text : ℤ)
        let x : ℤ := pyInt ((width : ℚ) * cfg.posX) - wordWidth / 2
        let y := baseY
        let hlOps :=
          if cfg.highlightBackground then
            match cfg.bgHighlightColor.getD cfg.textHighlightColor with
            | c =>
              [DrawOp.roundedRect .highlightBg (x - hlPaddingOf cfg.fontSize)
                (y - hlPaddingOf cfg.fontSize) (x + wordWidth + hlPaddingOf cfg.fontSize)
                (y + (textHeight : ℤ) + hlPaddingOf cfg.fontSize) (hlRadiusOf cfg.fontSize) c]
          else []
        let bgOps :=
          match cfg.bgColor with
          | some c =>
            [DrawOp.roundedRect .background (x - hPaddingOf cfg.fontSize)
              (y - vPaddingOf cfg.fontSize) (x + wordWidth + hPaddingOf cfg.fontSize)
              (y + (textHeight : ℤ) + vPaddingOf cfg.fontSize) (bgRadiusOf cfg.fontSize) c]
          | none => []
        let textColor := if cfg.highlightText then cfg.textHighlightColor else cfg.normalColor
        DrawOp.glyphs .shadow x y w.text 0 :: hlOps ++ bgOps
          ++ [DrawOp.glyphs .text x y w.text textColor]
    else
      match seg.words with
      | [] => []
      | _ =>
        let wordWidths := seg.words.map (fun w => μ w.text)
        let totalSegmentWidth : ℤ :=
          (wordWidths.sum : ℤ) + (cfg.wordSpacing : ℤ) * ((seg.words.length : ℤ) - 1)
        let startX : ℤ := pyInt ((width : ℚ) * cfg.posX) - totalSegmentWidth / 2
        let minMargin : ℤ := (width : ℤ) / 100
        let block := clampSegmentBlock (width : ℤ) minMargin
          { bgLeft := startX - hPaddingOf cfg.fontSize,
            bgRight := startX + totalSegmentWidth + hPaddingOf cfg.fontSize,
            startX := startX }
        let bgTop := baseY - vPaddingOf cfg.fontSize
        let bgBottom := baseY + (textHeight : ℤ) + vPaddingOf cfg.fontSize
        let bgOps :=
          match cfg.bgColor with
          | some c =>
            [DrawOp.roundedRect .background block.bgLeft bgTop block.bgRight bgBottom
              (bgRadiusOf cfg.fontSize) c]
          | none => []
        bgOps ++ segmentWordOps μ textHeight cfg t baseY block.startX seg.words

/-- The frame transformation: the source converts the frame to RGBA, draws
the operation list onto transparent layers, alpha-composites them in layer
order and converts back; the whole pixel pipeline is the external
`composite` capability taking the frame and the issued operations. -/
def renderFrameWith {F : Type} (composite : F → List DrawOp → F) (frame : F)
    (μ : String → ℕ) (textHeight : ℕ) (width height : ℕ) (cfg : RenderConfig)
    (segments : List Segment) (t : ℚ) : F :=
  composite frame (addTextOps μ textHeight width height cfg segments t)

/-! ### Remux step -/

/-- Outcome of one blocking `subprocess.run` invocation of ffmpeg: either
the timeout expired or the process exited with a status code. -/
inductive RunOutcome
  | timeout
  | exited (code : ℤ)
deriving DecidableEq, Repr

/-- What `process_complete_video_with_audio_rotated` delivers at
`output_video_path`. -/
inductive MergeDelivery
  | primaryOutput
  | altOutput
  | silentCopy
deriving DecidableEq, Repr

/-- The remux control flow of `process_complete_video_with_audio_rotated`
(media_processer.py 1301-1394).  `subprocess.run` is called WITHOUT
`check=True`, so it returns a `CompletedProcess` for every exit code and
never raises `CalledProcessError`; the `except subprocess.CalledProcessError`
arms are unreachable.  Only `TimeoutExpired` reaches the alternative
(audio-stream-optional) command, and only a timeout of that second run
reaches the silent-copy fallback. -/
def mergeRotatedDelivery (first alt : RunOutcome) : MergeDelivery :=
  match first with
  | .exited _ => .primaryOutput
  | .timeout =>
    match alt with
    | .exited _ => .altOutput
    | .timeout => .silentCopy

/-- A run succeeds when it exits with status 0. -/
def runSucceeded : RunOutcome → Bool
  | .timeout => false
  | .exited c => c == 0

/-- Modelled from the spec: "on timeout or failure it is retried once with a
more permissive (audio-stream-optional) parameter set, and if that also
fails the pipeline falls back to delivering the silent video" (spec section
5; likewise section 7).  A run fails when it times out or exits nonzero. -/
def specRemuxDelivery (first alt : RunOutcome) : MergeDelivery :=
  if runSucceeded first then .primaryOutput
  else if runSucceeded alt then .altOutput
  else .silentCopy

/-! ### Invariants of the packing loop -/

/-- A running segment with a non-punctuation head token keeps a
non-punctuation head token through the rest of the packing loop, and so does
every run it emits. -/
def HeadOk (run : Running) : Prop :=
  run.words ≠ [] ∧ ∀ w, run.words.head? = some w → isPunctuation w.text = false

/-- A current-word-only render configuration (font size 40, horizontal
anchor at the left edge, optional background and highlight enabled) that
pushes the caption past the left frame edge. -/
def wordOnlyProbeConfig : RenderConfig :=
  { fontSize := 40, posX := 0, posY := 1/2, wordSpacing := 10,
    normalColor := 1, textHighlightColor := 2, bgColor := some 3,
    bgHighlightColor := some 4, highlightText := true, highlightBackground := true,
    showCurrentWordOnly := true }

/-- The same configuration in full-segment mode. -/
def fullSegmentProbeConfig : RenderConfig :=
  { wordOnlyProbeConfig with showCurrentWordOnly := false }

/-- Facts maintained for the running segment (and hence true of every
emitted segment): its token list is non-empty; its tracked width is the
cumulative `tokensWidth` of its tokens; the measured width of its text is at
most the tracked width; its start and stop are the first token's start and
the last token's stop; and whenever it holds at least two tokens and its
last token is not punctuation, both budgets hold (the last, budget-checked
append covered the whole run). -/
def PackInv (μ : String → ℕ) (maxWidthPixels : ℕ) (maxDurationSeconds : ℚ) (spaceWidth : ℕ)
    (run : Running) : Prop :=
  run.words ≠ [] ∧
  run.width = tokensWidth μ spaceWidth run.words ∧
  μ run.text ≤ run.width ∧
  (∀ w0, run.words.head? = some w0 → run.start = w0.start) ∧
  (∀ w1, run.words.getLast? = some w1 → run.stop = w1.stop) ∧
  (∀ w1, run.words.getLast? = some w1 → isPunctuation w1.text = false →
    2 ≤ run.words.length →
    run.width ≤ maxWidthPixels ∧ run.stop - run.start ≤ maxDurationSeconds)


theorem tokensWidth_concat (μ : String → ℕ) (sw : ℕ) (w0 : Word) (ws : List Word) (w : Word) :
    tokensWidth μ sw (w0 :: (ws ++ [w])) = tokensWidth μ sw (w0 :: ws) + (sw + μ w.text) := by
  simp [tokensWidth, List.foldl_append]

/-- The running segment seeded from a single token satisfies the loop
invariant. -/
theorem packInv_seed (μ : String → ℕ) (maxW : ℕ) (maxD : ℚ) (sw : ℕ) (w : Word) :
    PackInv μ maxW maxD sw
      { text := w.text, start := w.start, stop := w.stop, words := [w], width := μ w.text } := by
  refine ⟨by simp, by simp [tokensWidth], le_refl _, ?_, ?_, ?_⟩
  · intro w0 h; simp at h; simp [h]
  · intro w1 h; simp at h; simp [h]
  · intro w1 _ _ hlen; simp at hlen

set_option maxHeartbeats 1000000

/-- Every run emitted by the packing loop satisfies `PackInv`, provided the
measure is additive over concatenation, `spaceWidth` measures one space, and
the incoming running segment (if any) satisfies it. -/
theorem packLoop_inv (μ : String → ℕ) (maxW : ℕ) (maxD : ℚ) (sw : ℕ)
    (hadd : ∀ a b : String, μ (a ++ b) = μ a + μ b) (hsw : μ " " = sw) :
    ∀ (toks : List Word) (r : Option Running),
      (∀ run0, r = some run0 → PackInv μ maxW maxD sw run0) →
      ∀ run ∈ packLoop μ maxW maxD sw r toks, PackInv μ maxW maxD sw run := by
  intro toks
  induction toks with
  | nil =>
    intro r hr run hmem
    cases r with
    | none => simp [packLoop] at hmem
    | some run0 =>
      simp [packLoop] at hmem
      exact hmem ▸ hr run0 rfl
  | cons w rest ih =>
    intro r hr run hmem
    rw [packLoop] at hmem
    by_cases hblank : (w.text.trim == "") = true
    · rw [if_pos hblank] at hmem
      exact ih r hr run hmem
    · rw [if_neg hblank] at hmem
      cases r with
      | none =>
        simp only at hmem
        refine ih _ ?_ run hmem
        intro run0 h0
        cases h0
        exact packInv_seed μ maxW maxD sw w
      | some cur =>
        simp only at hmem
        by_cases hsplit :
            ((decide (maxW < cur.width + sw + μ w.text)
              || decide (maxD < w.stop - cur.start)) && !isPunctuation w.text) = true
        · rw [if_pos hsplit] at hmem
          rcases List.mem_cons.mp hmem with hrun | hmem2
          · exact hrun ▸ hr cur rfl
          · refine ih _ ?_ run hmem2
            intro run0 h0
            cases h0
            exact packInv_seed μ maxW maxD sw w
        · rw [if_neg hsplit] at hmem
          refine ih _ ?_ run hmem
          intro run0 h0
          cases h0
          obtain ⟨hne, hwidth, htext, hstart, hstop, hbudget⟩ := hr cur rfl
          obtain ⟨c0, cs, hcons⟩ := List.exists_cons_of_ne_nil hne
          by_cases hpunct : isPunctuation w.text = true
          · -- punctuation append: no joining space in the text, no budget check
            refine ⟨by simp, ?_, ?_, ?_, ?_, ?_⟩
            · simp only [hpunct, if_pos]
              rw [hcons, List.cons_append, tokensWidth_concat, ← hcons, ← hwidth]
              omega
            · simp only [hpunct, if_pos, hadd]
              omega
            · intro w0 h0
              rw [hcons] at h0 ⊢
              simp only [List.cons_append, List.head?_cons, Option.some.injEq] at h0 ⊢
              exact hstart w0 (by simp [hcons, h0])
            · intro w1 h1
              simp only [List.getLast?_concat, Option.some.injEq] at h1
              simp [h1]
            · intro w1 h1 hnp _
              rw [List.getLast?_concat] at h1
              cases h1
              rw [hpunct] at hnp
              cases hnp
          · -- regular word append: the split test failed, so both budgets hold
            rw [Bool.not_eq_true] at hpunct
            rw [hpunct] at hsplit
            simp only [Bool.not_false, Bool.and_true, Bool.or_eq_true, decide_eq_true_eq,
              not_or] at hsplit
            obtain ⟨hwOK, hdOK⟩ := hsplit
            refine ⟨by simp, ?_, ?_, ?_, ?_, ?_⟩
            · simp only [hpunct, Bool.false_eq_true, if_false]
              rw [hcons, List.cons_append, tokensWidth_concat, ← hcons, ← hwidth]
              omega
            · simp only [hpunct, Bool.false_eq_true, if_false, hadd, hsw]
              omega
            · intro w0 h0
              rw [hcons] at h0 ⊢
              simp only [List.cons_append, List.head?_cons, Option.some.injEq] at h0 ⊢
              exact hstart w0 (by simp [hcons, h0])
            · intro w1 h1
              simp only [List.getLast?_concat, Option.some.injEq] at h1
              simp [h1]
            · intro w1 h1 _ _
              exact ⟨le_of_not_lt hwOK, le_of_not_lt hdOK⟩

/-- Every formatted segment of `createSegments` is a formatted run of the
packing loop (same text, times and token list). -/
theorem mem_createSegments (μ : String → ℕ) (maxW : ℕ) (maxD : ℚ) (ws : List Word)
    (seg : Segment) (hmem : seg ∈ createSegments μ maxW maxD ws) :
    ∃ run ∈ packLoop μ maxW maxD (μ " ") none (groupWords ws),
      seg.text = run.text ∧ seg.startTime = run.start ∧ seg.endTime = run.stop ∧
      seg.words = run.words := by
  unfold createSegments at hmem
  by_cases h : ws.isEmpty
  · simp [h] at hmem
  · rw [if_neg h] at hmem
    simp only at hmem
    obtain ⟨p, hp, hseg⟩ := List.mem_map.mp hmem
    rw [List.mem_enum_iff_getElem?] at hp
    exact ⟨p.2, List.getElem?_mem hp, by rw [← hseg], by rw [← hseg], by rw [← hseg],
      by rw [← hseg]⟩

/-- The tracked width of every run emitted by the packing loop is the
cumulative `tokensWidth` of its tokens (no measure assumptions needed). -/
theorem packLoop_run_width (μ : String → ℕ) (maxW : ℕ) (maxD : ℚ) (sw : ℕ) :
    ∀ (toks : List Word) (r : Option Running),
      (∀ run0, r = some run0 →
        run0.words ≠ [] ∧ run0.width = tokensWidth μ sw run0.words) →
      ∀ run ∈ packLoop μ maxW maxD sw r toks,
        run.words ≠ [] ∧ run.width = tokensWidth μ sw run.words := by
  intro toks
  induction toks with
  | nil =>
    intro r hr run hmem
    cases r with
    | none => simp [packLoop] at hmem
    | some run0 =>
      simp [packLoop] at hmem
      exact hmem ▸ hr run0 rfl
  | cons w rest ih =>
    intro r hr run hmem
    rw [packLoop] at hmem
    by_cases hblank : (w.text.trim == "") = true
    · rw [if_pos hblank] at hmem
      exact ih r hr run hmem
    · rw [if_neg hblank] at hmem
      cases r with
      | none =>
        simp only at hmem
        refine ih _ ?_ run hmem
        intro run0 h0
        cases h0
        exact ⟨by simp, by simp [tokensWidth]⟩
      | some cur =>
        simp only at hmem
        by_cases hsplit :
            ((decide (maxW < cur.width + sw + μ w.text)
              || decide (maxD < w.stop - cur.start)) && !isPunctuation w.text) = true
        · rw [if_pos hsplit] at hmem
          rcases List.mem_cons.mp hmem with hrun | hmem2
          · exact hrun ▸ hr cur rfl
          · refine ih _ ?_ run hmem2
            intro run0 h0
            cases h0
            exact ⟨by simp, by simp [tokensWidth]⟩
        · rw [if_neg hsplit] at hmem
          refine ih _ ?_ run hmem
          intro run0 h0
          cases h0
          obtain ⟨hne, hwidth⟩ := hr cur rfl
          obtain ⟨c0, cs, hcons⟩ := List.exists_cons_of_ne_nil hne
          refine ⟨by simp, ?_⟩
          simp only
          rw [hcons, List.cons_append, tokensWidth_concat, ← hcons, ← hwidth]
          omega


theorem packLoop_headOk (μ : String → ℕ) (maxW : ℕ) (maxD : ℚ) (sw : ℕ) :
    ∀ (toks : List Word) (run0 : Running), HeadOk run0 →
      ∀ run ∈ packLoop μ maxW maxD sw (some run0) toks, HeadOk run := by
  intro toks
  induction toks with
  | nil =>
    intro run0 h0 run hmem
    simp [packLoop] at hmem
    exact hmem ▸ h0
  | cons w rest ih =>
    intro run0 h0 run hmem
    rw [packLoop] at hmem
    by_cases hblank : (w.text.trim == "") = true
    · rw [if_pos hblank] at hmem
      exact ih run0 h0 run hmem
    · rw [if_neg hblank] at hmem
      simp only at hmem
      by_cases hsplit :
          ((decide (maxW < run0.width + sw + μ w.text)
            || decide (maxD < w.stop - run0.start)) && !isPunctuation w.text) = true
      · rw [if_pos hsplit] at hmem
        rcases List.mem_cons.mp hmem with hrun | hmem2
        · exact hrun ▸ h0
        · refine ih _ ?_ run hmem2
          rw [Bool.and_eq_true, Bool.not_eq_true'] at hsplit
          exact ⟨by simp, fun w1 h1 => by simp at h1; rw [← h1]; exact hsplit.2⟩
      · rw [if_neg hsplit] at hmem
        refine ih _ ?_ run hmem
        obtain ⟨hne, hhead⟩ := h0
        refine ⟨by simp, fun w1 h1 => ?_⟩
        simp only [List.head?_append_of_ne_nil _ hne] at h1
        exact hhead w1 h1

/-- Every run after the first one emitted by the packing loop was seeded at
a segment break, hence has a non-punctuation head token. -/
theorem packLoop_tail_headOk (μ : String → ℕ) (maxW : ℕ) (maxD : ℚ) (sw : ℕ) :
    ∀ (toks : List Word) (r : Option Running),
      ∀ run ∈ (packLoop μ maxW maxD sw r toks).tail, HeadOk run := by
  intro toks
  induction toks with
  | nil =>
    intro r run hmem
    cases r with
    | none => simp [packLoop] at hmem
    | some run0 => simp [packLoop] at hmem
  | cons w rest ih =>
    intro r run hmem
    rw [packLoop] at hmem
    by_cases hblank : (w.text.trim == "") = true
    · rw [if_pos hblank] at hmem
      exact ih r run hmem
    · rw [if_neg hblank] at hmem
      cases r with
      | none =>
        simp only at hmem
        exact ih _ run hmem
      | some cur =>
        simp only at hmem
        by_cases hsplit :
            ((decide (maxW < cur.width + sw + μ w.text)
              || decide (maxD < w.stop - cur.start)) && !isPunctuation w.text) = true
        · rw [if_pos hsplit] at hmem
          rw [List.tail_cons] at hmem
          rw [Bool.and_eq_true, Bool.not_eq_true'] at hsplit
          refine packLoop_headOk μ maxW maxD sw rest _ ?_ run hmem
          exact ⟨by simp, fun w1 h1 => by simp at h1; rw [← h1]; exact hsplit.2⟩
        · rw [if_neg hsplit] at hmem
          exact ih _ run hmem

/-- Concatenating the token lists of the runs emitted by the packing loop
reproduces the incoming running segment's tokens followed by every non-blank
token, in order. -/
theorem packLoop_flat (μ : String → ℕ) (maxW : ℕ) (maxD : ℚ) (sw : ℕ) :
    ∀ (toks : List Word) (r : Option Running),
      (packLoop μ maxW maxD sw r toks).flatMap (fun run => run.words) =
        (match r with | none => [] | some run => run.words) ++
          toks.filter (fun w => !(w.text.trim == "")) := by
  intro toks
  induction toks with
  | nil =>
    intro r
    cases r with
    | none => simp [packLoop]
    | some run0 => simp [packLoop]
  | cons w rest ih =>
    intro r
    rw [packLoop]
    by_cases hblank : (w.text.trim == "") = true
    · rw [if_pos hblank]
      rw [ih r, List.filter_cons]
      simp [hblank]
    · rw [if_neg hblank]
      cases r with
      | none =>
        simp only
        rw [ih, List.filter_cons]
        simp [hblank]
      | some cur =>
        simp only
        by_cases hsplit :
            ((decide (maxW < cur.width + sw + μ w.text)
              || decide (maxD < w.stop - cur.start)) && !isPunctuation w.text) = true
        · rw [if_pos hsplit]
          rw [List.flatMap_cons, ih, List.filter_cons]
          simp [hblank]
        · rw [if_neg hsplit]
          rw [ih, List.filter_cons]
          simp [hblank]

/-- Formatting the packed runs with 1-based indices does not change the
concatenation of their token lists. -/
theorem enumFrom_format_flat (k : ℕ) (runs : List Running) :
    ((List.enumFrom k runs).map (fun p =>
        ({ index := p.1 + 1, startTime := p.2.start, endTime := p.2.stop,
           text := p.2.text, words := p.2.words } : Segment))).flatMap
      (fun s => s.words) = runs.flatMap (fun run => run.words) := by
  induction runs generalizing k with
  | nil => simp
  | cons r rest ih => simp [List.enumFrom, ih]

/-- An ASCII apostrophe is punctuation under `Segmenter._is_punctuation`. -/
theorem apostrophe_isPunctuation (s : String) (h : isApostrophe s = true) :
    isPunctuation s = true := by
  have hs : s = "'" := by simpa [isApostrophe] using h
  subst hs
  rfl

/-! ### Claim C1 -/

/-- Claim C1 is false as stated: with the fallback measure and budgets of
800 px and 1.5 s, the input consisting of the two standalone punctuation
words "," at 0-1 s and "." at 9-10 s produces one segment holding both
tokens, whose duration 10 s exceeds the 1.5 s budget (the packer never
budget-checks a punctuation token). -/
theorem createSegments_budget_counterexample :
    ∃ seg ∈ createSegments fallbackMeasure 800 (3/2)
        [{ text := ",", start := 0, stop := 1 }, { text := ".", start := 9, stop := 10 }],
      2 ≤ seg.words.length ∧ (3/2 : ℚ) < seg.endTime - seg.startTime := by
  with_unfolding_all decide

/-- Claim C1 (amended): for every input word list and configuration, every
segment produced by `createSegments` that contains at least two tokens and
whose last token is not pure punctuation satisfies both budgets: the
measured width of its text is at most `maxWidthPixels` (for an additive
measure) and its span is at most `maxDurationSeconds`.  (Only a run of
leading standalone punctuation tokens can end in a punctuation token, and
only such a segment can exceed the budgets.) -/
theorem createSegments_twoToken_budget
    (μ : String → ℕ) (maxW : ℕ) (maxD : ℚ) (ws : List Word) (seg : Segment) (w : Word)
    (hadd : ∀ a b : String, μ (a ++ b) = μ a + μ b)
    (hmem : seg ∈ createSegments μ maxW maxD ws)
    (hlen : 2 ≤ seg.words.length)
    (hlast : seg.words.getLast? = some w)
    (hw : isPunctuation w.text = false) :
    μ seg.text ≤ maxW ∧ seg.endTime - seg.startTime ≤ maxD := by
  obtain ⟨run, hrun, htext, hstartT, hstopT, hwordsT⟩ :=
    mem_createSegments μ maxW maxD ws seg hmem
  have hinv := packLoop_inv μ maxW maxD (μ " ") hadd rfl (groupWords ws) none
    (fun run0 h0 => by cases h0) run hrun
  obtain ⟨hne, hwidth, htextle, hst, hsp, hbudget⟩ := hinv
  rw [hwordsT] at hlen hlast
  obtain ⟨hwle, hdle⟩ := hbudget w hlast hw hlen
  constructor
  · rw [htext]
    exact le_trans htextle hwle
  · rw [hstopT, hstartT]
    exact hdle

/-- Witness for C1: the Scenario-A segment "Hello world." has two tokens,
its last token "world." is not punctuation, and both budgets hold. -/
theorem createSegments_twoToken_budget_witness :
    fallbackMeasure "Hello world." ≤ 800 ∧ ((9/10 : ℚ) - 0 ≤ (3/2 : ℚ)) :=
  createSegments_twoToken_budget fallbackMeasure 800 (3/2)
    [⟨"Hello", 0, 2/5⟩, ⟨"world", 2/5, 4/5⟩, ⟨".", 4/5, 9/10⟩]
    { index := 1, startTime := 0, endTime := 9/10, text := "Hello world.",
      words := [⟨"Hello", 0, 2/5⟩, ⟨"world.", 2/5, 9/10⟩] }
    ⟨"world.", 2/5, 9/10⟩
    (fun a b => by simp [fallbackMeasure, String.length_append, Nat.add_mul])
    (by with_unfolding_all decide) (by with_unfolding_all decide)
    (by with_unfolding_all decide) (by with_unfolding_all decide)

/-! ### Claim C2 -/

/-- Claim C2 is false as stated: the packer computes the candidate width as
`current_width + space_width + token_width` for punctuation tokens too (the
"0 if punctuation" applies only to the text join).  With the fallback
measure and a 110 px budget, the input ", . ab" splits into two segments,
while the spec-worded candidate width (`specCreateSegments`, which adds 0
for punctuation) would keep everything in one. -/
theorem packCandidateWidth_counterexample :
    (createSegments fallbackMeasure 110 100
        [⟨",", 0, 1⟩, ⟨".", 1, 2⟩, ⟨"ab", 2, 3⟩]).length = 2 ∧
      (specCreateSegments fallbackMeasure 110 100
        [⟨",", 0, 1⟩, ⟨".", 1, 2⟩, ⟨"ab", 2, 3⟩]).length = 1 := by
  with_unfolding_all decide

/-- Claim C2 (amended): for every token after the first, the candidate
combined width is `current_width + space_width + token_width`, punctuation
included; consequently every emitted run's tracked width is the width of
its first token plus `space_width + token_width` for each later token
(`tokensWidth`). -/
theorem packLoop_width_formula
    (μ : String → ℕ) (maxW : ℕ) (maxD : ℚ) (sw : ℕ) (toks : List Word) (run : Running)
    (hmem : run ∈ packLoop μ maxW maxD sw none toks) :
    run.width = tokensWidth μ sw run.words :=
  (packLoop_run_width μ maxW maxD sw toks none (fun run0 h0 => by cases h0) run hmem).2

/-- Witness for C2: the run packed from the two punctuation tokens has
tracked width 60 = 20 + (20 + 20): the space width is charged for the
punctuation token even though its text ",." holds no space. -/
theorem packLoop_width_formula_witness :
    ({ text := ",.", start := 0, stop := 2,
       words := [⟨",", 0, 1⟩, ⟨".", 1, 2⟩], width := 60 } : Running).width =
      tokensWidth fallbackMeasure 20 [⟨",", 0, 1⟩, ⟨".", 1, 2⟩] :=
  packLoop_width_formula fallbackMeasure 110 100 20
    [⟨",", 0, 1⟩, ⟨".", 1, 2⟩, ⟨"ab", 2, 3⟩]
    { text := ",.", start := 0, stop := 2,
      words := [⟨",", 0, 1⟩, ⟨".", 1, 2⟩], width := 60 }
    (by with_unfolding_all decide)

/-! ### Claim C3 -/

/-- Claim C3 is false as stated: a word list consisting of one standalone
punctuation word produces a segment whose sole content — and hence first
token — is that pure-punctuation token. -/
theorem createSegments_punctuation_first_counterexample :
    createSegments fallbackMeasure 800 (3/2) [{ text := ",", start := 0, stop := 1 }] =
      [{ index := 1, startTime := 0, endTime := 1, text := ",",
         words := [{ text := ",", start := 0, stop := 1 }] }] ∧
      isPunctuation "," = true := by
  with_unfolding_all decide

/-- Claim C3 (amended): no segment other than the first starts with a
pure-punctuation token (a segment break is only made at a non-punctuation
token); only the first segment can start with punctuation, when the input
itself begins with standalone punctuation words. -/
theorem createSegments_later_head_not_punctuation
    (μ : String → ℕ) (maxW : ℕ) (maxD : ℚ) (ws : List Word) (i : ℕ) (seg : Segment) (w : Word)
    (hget : (createSegments μ maxW maxD ws).get? (i + 1) = some seg)
    (hhead : seg.words.head? = some w) :
    isPunctuation w.text = false := by
  unfold createSegments at hget
  by_cases h : ws.isEmpty
  · simp [h] at hget
  · rw [if_neg h] at hget
    simp only at hget
    rw [List.get?_eq_getElem?, List.getElem?_map] at hget
    obtain ⟨p, hp, hseg⟩ := Option.map_eq_some'.mp hget
    rw [List.getElem?_enum] at hp
    obtain ⟨run, hrunget, hpair⟩ := Option.map_eq_some'.mp hp
    have hmemtail : run ∈ (packLoop μ maxW maxD (μ " ") none (groupWords ws)).tail := by
      have h2 : (packLoop μ maxW maxD (μ " ") none (groupWords ws)).tail[i]? = some run := by
        rw [List.getElem?_tail]
        exact hrunget
      exact List.getElem?_mem h2
    have hok := packLoop_tail_headOk μ maxW maxD (μ " ") (groupWords ws) none run hmemtail
    have hwords : seg.words = run.words := by
      rw [← hseg, ← hpair]
    rw [hwords] at hhead
    exact hok.2 w hhead

/-- Witness for C3: a duration-forced split puts "bb" at the head of the
second segment, and it is not punctuation. -/
theorem createSegments_later_head_not_punctuation_witness :
    isPunctuation "bb" = false :=
  createSegments_later_head_not_punctuation fallbackMeasure 800 (3/2)
    [⟨"aa", 0, 1⟩, ⟨"bb", 10, 20⟩] 0
    { index := 2, startTime := 10, endTime := 20, text := "bb", words := [⟨"bb", 10, 20⟩] }
    ⟨"bb", 10, 20⟩ (by with_unfolding_all decide) (by with_unfolding_all decide)

/-! ### Claim C4 -/

/-- Claim C4 is false as stated: a word whose text is empty survives the
token grouper but is skipped by the packer, so the concatenated segment
tokens miss it. -/
theorem createSegments_flat_tokens_counterexample :
    (createSegments fallbackMeasure 800 (3/2)
        [{ text := "", start := 0, stop := 1 }]).flatMap (fun s => s.words) ≠
      groupWords [{ text := "", start := 0, stop := 1 }] := by
  with_unfolding_all decide

/-- Claim C4 (amended): concatenating the `words` lists of the produced
segments in output order reconstructs exactly the token grouper's output
with its whitespace-only tokens removed — every non-blank grouped token
appears exactly once, in the original order. -/
theorem createSegments_flat_tokens (μ : String → ℕ) (maxW : ℕ) (maxD : ℚ) (ws : List Word) :
    (createSegments μ maxW maxD ws).flatMap (fun s => s.words) =
      (groupWords ws).filter (fun w => !(w.text.trim == "")) := by
  unfold createSegments
  by_cases h : ws.isEmpty
  · rw [if_pos h]
    have hnil : ws = [] := List.isEmpty_iff.mp h
    subst hnil
    rfl
  · rw [if_neg h]
    simp only
    have henum : (packLoop μ maxW maxD (μ " ") none (groupWords ws)).enum =
        List.enumFrom 0 (packLoop μ maxW maxD (μ " ") none (groupWords ws)) := rfl
    rw [henum, enumFrom_format_flat, packLoop_flat]
    rfl

/-! ### Claim C5 -/

/-- Claim C5: in the token grouper, a standalone ASCII apostrophe followed
by a contraction suffix (one of re, ll, ve, s, t, d, m, compared
case-insensitively) and preceded by an in-progress token merges into one
token `stem + "'" + suffix` ending at the suffix word's end, consuming both
words; with no in-progress token the apostrophe is emitted as ordinary
standalone punctuation, and with a non-qualifying suffix (or no following
word) it is appended as ordinary punctuation. -/
theorem groupLoop_contraction_cases :
    (∀ (g w n : Word) (rest : List Word),
        isApostrophe w.text = true →
        contractionEndings.contains n.text.toLower = true →
        groupLoop (some g) (w :: n :: rest) =
          groupLoop (some { text := g.text ++ w.text ++ n.text, start := g.start,
                            stop := n.stop }) rest) ∧
    (∀ (w n : Word) (rest : List Word),
        isPunctuation w.text = true →
        groupLoop none (w :: n :: rest) = w :: groupLoop none (n :: rest)) ∧
    (∀ (g w n : Word) (rest : List Word),
        isPunctuation w.text = true →
        (isApostrophe w.text && contractionEndings.contains n.text.toLower) = false →
        groupLoop (some g) (w :: n :: rest) =
          groupLoop (some { text := g.text ++ w.text, start := g.start, stop := w.stop })
            (n :: rest)) ∧
    (∀ (g w : Word), isPunctuation w.text = true →
        groupLoop (some g) [w] =
          [{ text := g.text ++ w.text, start := g.start, stop := w.stop }]) := by
  refine ⟨?_, ?_, ?_, ?_⟩
  · intro g w n rest h1 h2
    rw [groupLoop, if_pos (apostrophe_isPunctuation w.text h1)]
    simp only [h1, h2, Bool.and_self, if_true]
  · intro w n rest h1
    rw [groupLoop, if_pos h1]
  · intro g w n rest h1 h2
    rw [groupLoop, if_pos h1]
    simp only [h2, Bool.false_eq_true, if_false]
  · intro g w h1
    rw [groupLoop, if_pos h1]

/-- Witness for C5: each of the four grouper behaviours at concrete words:
the merge producing "we're", the standalone apostrophe with no in-progress
token, the non-qualifying suffix "ok", and the trailing apostrophe. -/
theorem groupLoop_contraction_cases_witness :
    (groupLoop (some ⟨"we", 0, 1⟩) [⟨"'", 1, 2⟩, ⟨"re", 2, 3⟩] =
        groupLoop (some ⟨"we're", 0, 3⟩) []) ∧
      (groupLoop none [⟨"'", 0, 1⟩, ⟨"re", 1, 2⟩] =
        ⟨"'", 0, 1⟩ :: groupLoop none [⟨"re", 1, 2⟩]) ∧
      (groupLoop (some ⟨"we", 0, 1⟩) [⟨"'", 1, 2⟩, ⟨"ok", 2, 3⟩] =
        groupLoop (some ⟨"we'", 0, 2⟩) [⟨"ok", 2, 3⟩]) ∧
      (groupLoop (some ⟨"we", 0, 1⟩) [⟨"'", 1, 2⟩] = [⟨"we'", 0, 2⟩]) :=
  ⟨groupLoop_contraction_cases.1 ⟨"we", 0, 1⟩ ⟨"'", 1, 2⟩ ⟨"re", 2, 3⟩ []
      (by with_unfolding_all decide) (by with_unfolding_all decide),
    groupLoop_contraction_cases.2.1 ⟨"'", 0, 1⟩ ⟨"re", 1, 2⟩ []
      (by with_unfolding_all decide),
    groupLoop_contraction_cases.2.2.1 ⟨"we", 0, 1⟩ ⟨"'", 1, 2⟩ ⟨"ok", 2, 3⟩ []
      (by with_unfolding_all decide) (by with_unfolding_all decide),
    groupLoop_contraction_cases.2.2.2 ⟨"we", 0, 1⟩ ⟨"'", 1, 2⟩
      (by with_unfolding_all decide)⟩

/-! ### Claim C6 -/

/-- `segmentActiveAt` decides the half-open span membership. -/
theorem segmentActiveAt_iff (s : Segment) (t : ℚ) :
    segmentActiveAt s t = true ↔ (s.startTime ≤ t ∧ t < s.endTime) := by
  simp [segmentActiveAt]

/-- Claim C6: for every segment list and query time `t`, the timeline
resolver returns the first segment `s` with `s.start ≤ t < s.end` (every
earlier segment fails the test), and returns none exactly when no segment's
half-open span contains `t`; in particular this holds for the sorted,
non-overlapping lists the packer produces. -/
theorem findActiveSegment_first_match :
    ∀ (segments : List Segment) (t : ℚ),
      (∀ s, findActiveSegment segments t = some s →
        (s.startTime ≤ t ∧ t < s.endTime) ∧
        ∃ i, segments.get? i = some s ∧
          ∀ j s2, j < i → segments.get? j = some s2 →
            ¬(s2.startTime ≤ t ∧ t < s2.endTime)) ∧
      (findActiveSegment segments t = none ↔
        ∀ s ∈ segments, ¬(s.startTime ≤ t ∧ t < s.endTime)) := by
  intro segments t
  constructor
  · induction segments with
    | nil =>
      intro s h
      simp [findActiveSegment] at h
    | cons a l ih =>
      intro s h
      by_cases ha : segmentActiveAt a t = true
      · rw [findActiveSegment,
          @List.find?_cons_of_pos Segment (fun s2 => segmentActiveAt s2 t) a l ha] at h
        have hs : a = s := Option.some.inj h
        subst hs
        refine ⟨(segmentActiveAt_iff a t).mp ha, 0, rfl, ?_⟩
        intro j s2 hj _
        omega
      · rw [findActiveSegment,
          @List.find?_cons_of_neg Segment (fun s2 => segmentActiveAt s2 t) a l
            (by simpa using ha)] at h
        obtain ⟨hact, i, hi, hbefore⟩ := ih s h
        refine ⟨hact, i + 1, ?_, ?_⟩
        · rw [List.get?_cons_succ]
          exact hi
        · intro j s2 hj hget
          cases j with
          | zero =>
            rw [List.get?_cons_zero] at hget
            have hs2 : a = s2 := Option.some.inj hget
            rw [← hs2]
            exact fun hc => ha ((segmentActiveAt_iff a t).mpr hc)
          | succ j0 =>
            rw [List.get?_cons_succ] at hget
            exact hbefore j0 s2 (by omega) hget
  · rw [findActiveSegment, List.find?_eq_none]
    constructor
    · intro hall s hs hc
      exact absurd ((segmentActiveAt_iff s t).mpr hc) (by simpa using hall s hs)
    · intro hall s hs
      simp only [Bool.not_eq_true]
      rw [← Bool.not_eq_true]
      exact fun hb => hall s hs ((segmentActiveAt_iff s t).mp hb)

/-- Witness for C6: at time 3/2 the resolver picks the second of two
segments; its span contains 3/2, it sits at position 1, and the earlier
segment's span does not contain 3/2. -/
theorem findActiveSegment_first_match_witness :
    ((⟨2, 1, 2, "bb", []⟩ : Segment).startTime ≤ (3/2 : ℚ) ∧
        (3/2 : ℚ) < (⟨2, 1, 2, "bb", []⟩ : Segment).endTime) ∧
      ∃ i, [(⟨1, 0, 1, "aa", []⟩ : Segment), ⟨2, 1, 2, "bb", []⟩].get? i =
          some ⟨2, 1, 2, "bb", []⟩ ∧
        ∀ j s2, j < i →
          [(⟨1, 0, 1, "aa", []⟩ : Segment), ⟨2, 1, 2, "bb", []⟩].get? j = some s2 →
          ¬(s2.startTime ≤ (3/2 : ℚ) ∧ (3/2 : ℚ) < s2.endTime) :=
  (findActiveSegment_first_match [⟨1, 0, 1, "aa", []⟩, ⟨2, 1, 2, "bb", []⟩] (3/2)).1
    ⟨2, 1, 2, "bb", []⟩ (by with_unfolding_all decide)

/-! ### Claim C7 -/

/-- Claim C7 is overtaken by a source bug: `subprocess.run` is invoked
without `check=True` in `process_complete_video_with_audio_rotated`, so a
first ffmpeg call that FAILS (exits nonzero) raises nothing — the
`except subprocess.CalledProcessError` retry arm is dead code, the function
reports success and never runs the audio-stream-optional retry nor the
silent-copy fallback; only a TIMEOUT triggers them.  The spec's policy
(`specRemuxDelivery`) would retry a nonzero exit and deliver the alternative
output. -/
theorem mergeRotatedDelivery_failure_not_retried :
    (∀ (c : ℤ) (alt : RunOutcome),
      mergeRotatedDelivery (.exited c) alt = .primaryOutput) ∧
      mergeRotatedDelivery (.exited 1) (.exited 0) = .primaryOutput ∧
      specRemuxDelivery (.exited 1) (.exited 0) = .altOutput ∧
      mergeRotatedDelivery .timeout (.exited 1) = .altOutput ∧
      mergeRotatedDelivery .timeout .timeout = .silentCopy :=
  ⟨fun _ _ => rfl, rfl, by decide, rfl, rfl⟩

/-! ### Claim C8 -/


/-- Claim C8 is false as stated: in `show_current_word_only` mode the frame
renderer applies no edge clamping at all — on a 1000-px-wide frame with the
anchor at the left edge, the background rectangle is drawn from x = -70,
far past the 1%-margin (10 px), and the text is drawn at x = -50,
unshifted. -/
theorem addTextOps_no_clamp_counterexample :
    addTextOps fallbackMeasure 45 1000 1000 wordOnlyProbeConfig
        [{ index := 1, startTime := 0, endTime := 1, text := "hello",
           words := [⟨"hello", 0, 1⟩] }] (1/2) =
      [DrawOp.glyphs .shadow (-50) 500 "hello" 0,
        DrawOp.roundedRect .highlightBg (-58) 492 58 553 6 4,
        DrawOp.roundedRect .background (-70) 488 70 557 12 3,
        DrawOp.glyphs .text (-50) 500 "hello" 2] ∧
      ((-70 : ℤ) < 1000 / 100) := by
  with_unfolding_all decide

/-- Claim C8 (amended): only the full-segment path of the media-processer
renderer clamps, and only horizontally: `clampSegmentBlock` shifts the
background rectangle and the text start by the same offsets (their relative
offset and the block width are preserved), the clamped background always
ends at or before `width - margin`, and when the block fits within
`width - 2*margin` its left edge lands at or after `margin`; the
current-word-only path and the vertical direction have no clamping. -/
theorem clampSegmentBlock_spec (W m : ℤ) (p : BlockPos)
    (hfit : p.bgRight - p.bgLeft ≤ W - 2 * m) :
    ((clampSegmentBlock W m p).bgRight - (clampSegmentBlock W m p).bgLeft =
        p.bgRight - p.bgLeft) ∧
      ((clampSegmentBlock W m p).startX - (clampSegmentBlock W m p).bgLeft =
        p.startX - p.bgLeft) ∧
      (clampSegmentBlock W m p).bgRight ≤ W - m ∧
      m ≤ (clampSegmentBlock W m p).bgLeft := by
  unfold clampSegmentBlock
  by_cases h1 : p.bgLeft < m
  · rw [if_pos h1]
    dsimp only
    by_cases h2 : p.bgRight + (m - p.bgLeft) > W - m
    · rw [if_pos h2]
      refine ⟨?_, ?_, ?_, ?_⟩ <;> (try dsimp only) <;> omega
    · rw [if_neg h2]
      refine ⟨?_, ?_, ?_, ?_⟩ <;> (try dsimp only) <;> omega
  · rw [if_neg h1]
    dsimp only
    by_cases h2 : p.bgRight > W - m
    · rw [if_pos h2]
      refine ⟨?_, ?_, ?_, ?_⟩ <;> (try dsimp only) <;> omega
    · rw [if_neg h2]
      refine ⟨?_, ?_, ?_, ?_⟩ <;> (try dsimp only) <;> omega

/-- Witness for C8: the probe block from the counterexample, fed through the
full-segment clamp on a 1000-px frame with 10-px margin, is shifted to
start at the margin with its width and its text offset preserved. -/
theorem clampSegmentBlock_spec_witness :
    ((clampSegmentBlock 1000 10 ⟨-70, 130, -50⟩).bgRight -
        (clampSegmentBlock 1000 10 ⟨-70, 130, -50⟩).bgLeft = (130 : ℤ) - (-70)) ∧
      ((clampSegmentBlock 1000 10 ⟨-70, 130, -50⟩).startX -
        (clampSegmentBlock 1000 10 ⟨-70, 130, -50⟩).bgLeft = (-50 : ℤ) - (-70)) ∧
      (clampSegmentBlock 1000 10 ⟨-70, 130, -50⟩).bgRight ≤ 1000 - 10 ∧
      (10 : ℤ) ≤ (clampSegmentBlock 1000 10 ⟨-70, 130, -50⟩).bgLeft :=
  clampSegmentBlock_spec 1000 10 ⟨-70, 130, -50⟩ (by decide)

/-! ### Claim C9 -/

/-- Claim C9: when no segment is active, or — in current-word-only mode —
no word is active inside the active segment, the renderer issues no drawing
operations, and composing the frame with the empty operation list returns
the frame's pixels unchanged (for any compositing capability that is the
identity on an empty operation list, as alpha compositing of fully
transparent layers is). -/
theorem renderFrame_inactive_identity {F : Type} (composite : F → List DrawOp → F)
    (frame : F) (μ : String → ℕ) (textHeight width height : ℕ) (cfg : RenderConfig)
    (segments : List Segment) (t : ℚ)
    (hid : ∀ f : F, composite f [] = f) :
    (findActiveSegment segments t = none →
      addTextOps μ textHeight width height cfg segments t = [] ∧
      renderFrameWith composite frame μ textHeight width height cfg segments t = frame) ∧
    (∀ seg, cfg.showCurrentWordOnly = true → findActiveSegment segments t = some seg →
      findActiveWord seg.words t = none →
      addTextOps μ textHeight width height cfg segments t = [] ∧
      renderFrameWith composite frame μ textHeight width height cfg segments t = frame) := by
  constructor
  · intro hnone
    have hops : addTextOps μ textHeight width height cfg segments t = [] := by
      simp [addTextOps, hnone]
    exact ⟨hops, by rw [renderFrameWith, hops]; exact hid frame⟩
  · intro seg hmode hsome hword
    have hops : addTextOps μ textHeight width height cfg segments t = [] := by
      simp [addTextOps, hsome, hmode, hword]
    exact ⟨hops, by rw [renderFrameWith, hops]; exact hid frame⟩

/-- Witness for C9: a pixel-list frame `[7]` with a compositor that keeps
the frame on an empty operation list; the frame is returned unchanged both
when the query time 5 lies in no segment (full-segment mode) and when, in
current-word-only mode, time 1/2 lies in the active segment but in none of
its words. -/
theorem renderFrame_inactive_identity_witness :
    (renderFrameWith (fun (f : List ℕ) ops => ops.foldl (fun _ _ => ([] : List ℕ)) f) [7]
        fallbackMeasure 45 1000 1000 fullSegmentProbeConfig
        [{ index := 1, startTime := 0, endTime := 1, text := "hi",
           words := [⟨"hi", 0, 2/5⟩] }] 5 = [7]) ∧
      (renderFrameWith (fun (f : List ℕ) ops => ops.foldl (fun _ _ => ([] : List ℕ)) f) [7]
        fallbackMeasure 45 1000 1000 wordOnlyProbeConfig
        [{ index := 1, startTime := 0, endTime := 1, text := "hi",
           words := [⟨"hi", 0, 2/5⟩] }] (1/2) = [7]) :=
  ⟨((renderFrame_inactive_identity
        (fun (f : List ℕ) ops => ops.foldl (fun _ _ => ([] : List ℕ)) f) [7]
        fallbackMeasure 45 1000 1000 fullSegmentProbeConfig
        [{ index := 1, startTime := 0, endTime := 1, text := "hi",
           words := [⟨"hi", 0, 2/5⟩] }] 5 (fun _ => rfl)).1
      (by with_unfolding_all decide)).2,
    ((renderFrame_inactive_identity
        (fun (f : List ℕ) ops => ops.foldl (fun _ _ => ([] : List ℕ)) f) [7]
        fallbackMeasure 45 1000 1000 wordOnlyProbeConfig
        [{ index := 1, startTime := 0, endTime := 1, text := "hi",
           words := [⟨"hi", 0, 2/5⟩] }] (1/2) (fun _ => rfl)).2
      { index := 1, startTime := 0, endTime := 1, text := "hi",
        words := [⟨"hi", 0, 2/5⟩] }
      rfl (by with_unfolding_all decide) (by with_unfolding_all decide)).2⟩

end CaptionApp
